import Mathlib

/-!
Verification of the Gomoku terminal game (SpongeBaby-124/Gomoku-Terminal-Game).

The repository snapshot contains game.py, ai_provider.py, ai_service.py,
config.py, chat_manager.py, ui.py, providers/openai_provider.py and the test
script test_ai.py.  The modules board.py and ai.py (class Board and class
GomokuAI, the traditional engine) are imported by every caller but are not
part of the snapshot; their embeddings below are modelled from the spec and
from the call sites, and are marked as such in their doc comments.
-/

set_option maxRecDepth 10000

namespace Gomoku

/-- Cell content of one board intersection.  Python encodes cells as ints
(0 = empty, 1 = black, 2 = white); we use an enumeration. -/
inductive Cell where
  | empty : Cell
  | black : Cell
  | white : Cell
deriving DecidableEq, Repr

/-- Opponent of a player; empty is fixed. -/
def Cell.opp : Cell → Cell
  | Cell.empty => Cell.empty
  | Cell.black => Cell.white
  | Cell.white => Cell.black

/-- Modelled from the spec: board.py is absent from the snapshot.  Board是
authoritative grid state (spec section 3): an N by N grid of cells, the ordered
move history, and the cached last move.  Callers construct it with no
arguments (game.py line 39, test_ai.py line 31) and read the class constant
Board.SIZE. -/
structure Board where
  size : Nat
  grid : List (List Cell)
  history : List (Int × Int × Cell)
  last_move : Option (Int × Int × Cell)
deriving DecidableEq, Repr

/-- Board.SIZE, the class constant: ui.py (_update_window_size) computes the
layout for a 25 by 25 board, so the hidden constant of the missing board.py
is 25. -/
def BOARD_SIZE : Nat := 25

/-- Board(): the zero-argument constructor used by every caller. -/
def Board.new : Board :=
  { size := BOARD_SIZE
    grid := List.replicate BOARD_SIZE (List.replicate BOARD_SIZE Cell.empty)
    history := []
    last_move := none }

/-- Well-formedness: the grid really is size by size. -/
def Board.wf (b : Board) : Prop :=
  b.grid.length = b.size ∧ ∀ row ∈ b.grid, row.length = b.size

instance (b : Board) : Decidable b.wf := by
  unfold Board.wf; infer_instance

/-- Cell lookup: some cell when (r, c) is on the board, none outside. -/
def getCell (b : Board) (r c : Int) : Option Cell :=
  if 0 ≤ r ∧ r < (b.size : Int) ∧ 0 ≤ c ∧ c < (b.size : Int) then
    some ((b.grid.getD r.toNat []).getD c.toNat Cell.empty)
  else none

/-- Modelled from the spec: place(row, col, player) succeeds iff the move is
legal (in range and target empty); on success it mutates the grid, appends to
history and updates the last move, otherwise it leaves the board unchanged
(spec section 4.1).  It is a total function: the boolean is the only failure
channel, nothing is raised. -/
def place_stone (b : Board) (r c : Int) (p : Cell) : Bool × Board :=
  if getCell b r c = some Cell.empty then
    (true,
      { b with
        grid := b.grid.set r.toNat ((b.grid.getD r.toNat []).set c.toNat p)
        history := b.history ++ [(r, c, p)]
        last_move := some (r, c, p) })
  else (false, b)

/-- Modelled from the spec: isFull is true iff no empty cell remains
(spec section 4.1). -/
def Board.is_full (b : Board) : Bool :=
  b.grid.all (fun row => row.all (fun cell => cell ≠ Cell.empty))

/-- Modelled from the spec: reset clears grid and history (spec section 4.1). -/
def Board.reset (b : Board) : Board :=
  { size := b.size
    grid := List.replicate b.size (List.replicate b.size Cell.empty)
    history := []
    last_move := none }

/-- The four axes a winning run can lie on. -/
def dirs : List (Int × Int) := [(0, 1), (1, 0), (1, 1), (1, -1)]

/-- Walk from (r, c) in direction (dr, dc) and count how many consecutive
cells hold player p, starting at the first step.  Fuel bounds the walk; the
board size is always enough fuel. -/
def countDir (b : Board) (p : Cell) : Int → Int → Int → Int → Nat → Nat
  | _, _, _, _, 0 => 0
  | r, c, dr, dc, fuel + 1 =>
    if getCell b (r + dr) (c + dc) = some p then
      countDir b p (r + dr) (c + dc) dr dc fuel + 1
    else 0

/-- Modelled from the spec: checkWin(row, col) is true iff a run of at least
five consecutive same-player stones passes through (row, col) along one of the
four axes (spec section 4.1).  The stone at (row, col) itself is counted once
and the walk extends both ways. -/
def check_win (b : Board) (r c : Int) : Bool :=
  match getCell b r c with
  | none => false
  | some p =>
    if p = Cell.empty then false
    else
      dirs.any fun d =>
        5 ≤ 1 + countDir b p r c d.1 d.2 b.size
              + countDir b p r c (-d.1) (-d.2) b.size

/-- Specification predicate for a win: five consecutive aligned cells, all
holding the stone that sits at (r, c), with (r, c) among them. -/
def hasFiveThrough (b : Board) (r c : Int) : Prop :=
  ∃ p, getCell b r c = some p ∧ p ≠ Cell.empty ∧
    ∃ d, d ∈ dirs ∧ ∃ k : Nat, k ≤ 4 ∧
      ∀ i : Nat, i < 5 →
        getCell b (r + ((i : Int) - (k : Int)) * d.1)
                  (c + ((i : Int) - (k : Int)) * d.2) = some p

/-- Modelled from the spec: weight table of the threat evaluator (spec
section 4.2): a dedicated maximal weight for an immediate win, then
open-four well above blocked-four, above open-three, above blocked-three,
above open-two; a run blocked at both ends that cannot reach five scores
nothing. -/
def scoreRun (len : Nat) (openEnds : Nat) : Int :=
  if 5 ≤ len then 10000000
  else if len = 4 then
    if openEnds = 2 then 1000000 else if openEnds = 1 then 100000 else 0
  else if len = 3 then
    if openEnds = 2 then 10000 else if openEnds = 1 then 1000 else 0
  else if len = 2 then
    if openEnds = 2 then 100 else if openEnds = 1 then 10 else 0
  else 0

/-- Modelled from the spec: score contributed along one axis by placing (or
holding) a stone of player p at (r, c): walk both ways, classify the run
length and the openness of its two ends, and look the pattern up in the
weight table (spec section 4.2). -/
def evaluate_direction (b : Board) (p : Cell) (r c dr dc : Int) : Int :=
  let fwd := countDir b p r c dr dc b.size
  let bwd := countDir b p r c (-dr) (-dc) b.size
  let len := 1 + fwd + bwd
  let e1 : Nat :=
    if getCell b (r + ((fwd : Int) + 1) * dr) (c + ((fwd : Int) + 1) * dc)
        = some Cell.empty then 1 else 0
  let e2 : Nat :=
    if getCell b (r - ((bwd : Int) + 1) * dr) (c - ((bwd : Int) + 1) * dc)
        = some Cell.empty then 1 else 0
  scoreRun len (e1 + e2)

/-- Sum of the four axis scores for player p at (r, c). -/
def cellLineScore (b : Board) (p : Cell) (r c : Int) : Int :=
  dirs.foldl (fun acc d => acc + evaluate_direction b p r c d.1 d.2) 0

/-- Modelled from the spec: the threat evaluator scores a candidate placement
as offense plus defense, the defensive value being the same computation as if
the opponent played the cell (spec section 4.2).  It is a pure function of
the board snapshot. -/
def evaluate_point (b : Board) (r c : Int) (p : Cell) : Int :=
  cellLineScore b p r c + cellLineScore b p.opp r c

/-- All coordinates of the size by size board, row-major. -/
def allCells (b : Board) : List (Int × Int) :=
  (List.range b.size).flatMap fun r =>
    (List.range b.size).map fun c => ((r : Int), (c : Int))

/-- Modelled from the spec: whole-board score from player p's perspective
(used as the leaf evaluation of the search engine, spec section 4.4): each of
p's stones adds its line score, each opponent stone subtracts its own. -/
def evaluate_board (b : Board) (p : Cell) : Int :=
  (allCells b).foldl
    (fun acc rc =>
      match getCell b rc.1 rc.2 with
      | some q =>
        if q = Cell.empty then acc
        else if q = p then acc + cellLineScore b p rc.1 rc.2
        else acc - cellLineScore b q rc.1 rc.2
      | none => acc) 0

/-- True iff at least one stone is on the board. -/
def hasStone (b : Board) : Bool :=
  b.grid.any (fun row => row.any (fun cell => cell ≠ Cell.empty))

/-- Chebyshev-2 neighbourhood offsets of candidate generation. -/
def candOffsets : List Int := [-2, -1, 0, 1, 2]

/-- True iff some stone sits within Chebyshev distance 2 of (r, c). -/
def isNearStone (b : Board) (r c : Int) : Bool :=
  candOffsets.any fun dr => candOffsets.any fun dc =>
    match getCell b (r + dr) (c + dc) with
    | some q => q ≠ Cell.empty
    | none => false

/-- Modelled from the spec: candidate generation (spec section 4.3): only
empty cells within a fixed Chebyshev radius 2 of an existing stone are
candidates; an empty board yields the single candidate at the board center. -/
def generate_candidates (b : Board) : List (Int × Int) :=
  if hasStone b then
    (allCells b).filter fun rc =>
      (getCell b rc.1 rc.2 == some Cell.empty) && isNearStone b rc.1 rc.2
  else [((b.size / 2 : Nat), ((b.size / 2 : Nat) : Int))]

/-- Chebyshev distance of a move from the board center, for tie-breaking. -/
def centerDist (b : Board) (m : Int × Int) : Nat :=
  max (m.1 - ((b.size / 2 : Nat) : Int)).natAbs
      (m.2 - ((b.size / 2 : Nat) : Int)).natAbs

/-- Deterministic preference order of the difficulty strategies: higher score
first, ties broken by proximity to the board center, then row-major order
(spec section 4.4). -/
def betterThan (score : Int × Int → Int) (b : Board) (m1 m2 : Int × Int) : Bool :=
  if score m1 ≠ score m2 then score m2 < score m1
  else if centerDist b m1 ≠ centerDist b m2 then centerDist b m1 < centerDist b m2
  else if m1.1 ≠ m2.1 then m1.1 < m2.1
  else m1.2 < m2.2

/-- Pick the preferred move from a candidate list; none iff the list is empty. -/
def selectMax (score : Int × Int → Int) (b : Board) (l : List (Int × Int)) :
    Option (Int × Int) :=
  l.foldl
    (fun acc m =>
      match acc with
      | none => some m
      | some m0 => if betterThan score b m m0 then some m else some m0)
    none

/-- True iff placing p at m wins immediately. -/
def isWinningMove (b : Board) (p : Cell) (m : Int × Int) : Bool :=
  check_win (place_stone b m.1 m.2 p).2 m.1 m.2

/-- Modelled from the spec: easy tier (spec section 4.4): win if possible,
else block an immediate opponent win, else maximize the local pattern score;
ties broken deterministically. -/
def easySelect (b : Board) (p : Cell) (cands : List (Int × Int)) :
    Option (Int × Int) :=
  let wins := cands.filter (isWinningMove b p)
  if wins ≠ [] then selectMax (fun _ => 0) b wins
  else
    let blocks := cands.filter (isWinningMove b p.opp)
    if blocks ≠ [] then selectMax (fun _ => 0) b blocks
    else selectMax (fun m => cellLineScore b p m.1 m.2) b cands

/-- Modelled from the spec: medium tier (spec section 4.4): full combined
offense plus defense score per candidate, pick the maximum. -/
def mediumSelect (b : Board) (p : Cell) (cands : List (Int × Int)) :
    Option (Int × Int) :=
  selectMax (fun m => evaluate_point b m.1 m.2 p) b cands

/-- Modelled from the spec: bounded minimax value for player p with the given
mover to play, to the given depth; leaves are scored by the whole-board
evaluator (spec section 4.4).  Alpha-beta pruning of the source is a
value-preserving optimization and is not modelled. -/
def minimaxVal (p : Cell) : Nat → Board → Cell → Int
  | 0, b, _ => evaluate_board b p
  | Nat.succ d, b, mover =>
    match generate_candidates b with
    | [] => evaluate_board b p
    | cands =>
      if mover = p then
        (cands.map fun m =>
          minimaxVal p d (place_stone b m.1 m.2 mover).2 mover.opp).foldl
          max (-1000000000)
      else
        (cands.map fun m =>
          minimaxVal p d (place_stone b m.1 m.2 mover).2 mover.opp).foldl
          min 1000000000

/-- Take the k best candidates by the given score, best first. -/
def topKAux (score : Int × Int → Int) (b : Board) :
    Nat → List (Int × Int) → List (Int × Int)
  | 0, _ => []
  | Nat.succ k, l =>
    match selectMax score b l with
    | none => []
    | some m => m :: topKAux score b k (l.erase m)

/-- Modelled from the spec: hard tier (spec section 4.4): short-circuit to an
immediate winning or must-block move, else run bounded minimax over the top
candidates ranked by the medium-tier score. -/
def hardSelect (b : Board) (p : Cell) (cands : List (Int × Int)) :
    Option (Int × Int) :=
  let wins := cands.filter (isWinningMove b p)
  if wins ≠ [] then selectMax (fun _ => 0) b wins
  else
    let blocks := cands.filter (isWinningMove b p.opp)
    if blocks ≠ [] then selectMax (fun _ => 0) b blocks
    else
      let top := topKAux (fun m => evaluate_point b m.1 m.2 p) b 10 cands
      selectMax (fun m => minimaxVal p 2 (place_stone b m.1 m.2 p).2 p.opp) b top

/-- Modelled from the spec: the traditional engine, constructed from the
difficulty string (ai.py is absent from the snapshot; GomokuAI(difficulty) at
game.py line 40 and test_ai.py line 32). -/
structure GomokuAI where
  difficulty : String
deriving DecidableEq, Repr

/-- Modelled from the spec: selectMove(board, player): generate candidates and
apply the configured tier; none only when no candidate exists
(spec section 4.4). -/
def GomokuAI.get_move (ai : GomokuAI) (b : Board) (p : Cell) :
    Option (Int × Int) :=
  let cands := generate_candidates b
  if ai.difficulty = "easy" then easySelect b p cands
  else if ai.difficulty = "hard" then hardSelect b p cands
  else mediumSelect b p cands

/-! Configuration and AI-service layer (config.py, ai_service.py). -/

/-- AIProviderType enumeration (config.py lines 19-23). -/
inductive AIProviderType where
  | openai : AIProviderType
  | anthropic : AIProviderType
  | traditional : AIProviderType
deriving DecidableEq, Repr

/-- AIConfig dataclass (config.py lines 26-46), after post-init default-model
filling. -/
structure AIConfig where
  provider : AIProviderType
  api_key : Option String := none
  model : Option String := none
  endpoint : Option String := none
  timeout : Nat := 30
  max_retries : Nat := 3
deriving DecidableEq, Repr

/-- The config file contents as parsed from config.json (config.py
load_config_from_file); none when the file is absent or unreadable. -/
structure FileConfig where
  provider : Option String := none
  api_key : Option String := none
  model : Option String := none
  endpoint : Option String := none
  timeout : Option Nat := none
  max_retries : Option Nat := none
deriving DecidableEq, Repr

/-- Process environment and filesystem state visible to config.py: the six
AI_* environment variables (already stripped, empty collapsed to none, as in
config.py lines 159-164) and the optional config file. -/
structure Env where
  aiProvider : Option String := none
  aiApiKey : Option String := none
  aiModel : Option String := none
  aiEndpoint : Option String := none
  aiTimeout : Option String := none
  aiMaxRetries : Option String := none
  configFile : Option FileConfig := none
deriving DecidableEq, Repr

/-- Parse of the provider string into AIProviderType (config.py
lines 193-200); none models the ConfigError raise. -/
def parseProviderType (s : String) : Option AIProviderType :=
  if s = "openai" then some AIProviderType.openai
  else if s = "anthropic" then some AIProviderType.anthropic
  else if s = "traditional" then some AIProviderType.traditional
  else none

/-- Python __post_init__ of AIConfig: fill the default model per provider
(config.py lines 40-46). -/
def postInitModel (p : AIProviderType) (m : Option String) : Option String :=
  match m with
  | some s => some s
  | none =>
    match p with
    | AIProviderType.openai => some "gpt-4o"
    | AIProviderType.anthropic => some "claude-3-5-sonnet-20241022"
    | AIProviderType.traditional => none

/-- load_ai_config (config.py lines 132-238): merge cli over environment over
file over defaults; error models a raised ConfigError.  Integer parsing of
the timeout and retry settings keeps the fallback-to-default behaviour of the
source. -/
def load_ai_config (cliProvider cliApiKey cliModel cliEndpoint : Option String)
    (env : Env) : Except Unit AIConfig :=
  let fileCfg := env.configFile.getD {}
  let providerStr :=
    (((cliProvider.orElse fun _ => env.aiProvider).orElse
        fun _ => fileCfg.provider).getD "traditional").toLower
  let api_key := (cliApiKey.orElse fun _ => env.aiApiKey).orElse
      fun _ => fileCfg.api_key
  let model := (cliModel.orElse fun _ => env.aiModel).orElse
      fun _ => fileCfg.model
  let endpoint := (cliEndpoint.orElse fun _ => env.aiEndpoint).orElse
      fun _ => fileCfg.endpoint
  match parseProviderType providerStr with
  | none => Except.error ()
  | some provider =>
    if provider = AIProviderType.traditional then
      Except.ok { provider := AIProviderType.traditional }
    else if api_key = none then Except.error ()
    else
      let timeout :=
        match env.aiTimeout with
        | some s => match s.toNat? with
          | some n => if n = 0 then 30 else n
          | none => 30
        | none => match fileCfg.timeout with
          | some n => if n = 0 then 30 else n
          | none => 30
      let max_retries :=
        match env.aiMaxRetries with
        | some s => (s.toNat?).getD 3
        | none => (fileCfg.max_retries).getD 3
      Except.ok
        { provider := provider
          api_key := api_key
          model := postInitModel provider model
          endpoint := endpoint
          timeout := timeout
          max_retries := max_retries }

/-- The provider instances the factory can create (openai_provider.py and the
anthropic sibling); the model assumes the client libraries import fine. -/
inductive ProviderKind where
  | openai : ProviderKind
  | anthropic : ProviderKind
deriving DecidableEq, Repr

/-- AIServiceFactory.create_provider (ai_service.py lines 20-71): traditional
maps to no provider, otherwise the matching provider instance. -/
def create_provider (cfg : AIConfig) : Option ProviderKind :=
  match cfg.provider with
  | AIProviderType.traditional => none
  | AIProviderType.openai => some ProviderKind.openai
  | AIProviderType.anthropic => some ProviderKind.anthropic

/-- Body of get_ai_provider (ai_service.py lines 74-92): load the config with
no cli overrides, create the provider; any error falls back to the
traditional configuration. -/
def get_ai_provider_body (env : Env) : Option ProviderKind × AIConfig :=
  match load_ai_config none none none none env with
  | Except.error _ => (none, { provider := AIProviderType.traditional })
  | Except.ok cfg => (create_provider cfg, cfg)

/-- A Python call to get_ai_provider with the given keyword-argument names.
The function is defined with no parameters (ai_service.py line 74), so a call
supplying any keyword argument raises TypeError before the body runs; the
error summand models that raise. -/
def callGetAiProvider (kwargs : List String) (env : Env) :
    Except Unit (Option ProviderKind × AIConfig) :=
  if kwargs.isEmpty then Except.ok (get_ai_provider_body env)
  else Except.error ()

/-! Game state and the AI turn (game.py). -/

/-- Game outcome values: the strings given to self.winner. -/
inductive Winner where
  | black : Winner
  | white : Winner
  | draw : Winner
deriving DecidableEq, Repr

/-- The fields of GomokuGame that the verified claims touch (game.py
lines 23-67). -/
structure GameState where
  difficulty : String
  board : Board
  traditional_ai : GomokuAI
  current_player : Cell
  game_over : Bool
  winner : Option Winner
  turn : Nat
  use_ai_service : Bool
  ai_provider : Option ProviderKind
  ai_config : Option AIConfig
deriving DecidableEq, Repr

/-- GomokuGame._init_ai_service (game.py lines 69-94): the call passes the
keyword arguments cli_api_key, cli_endpoint and cli_model to the parameterless
get_ai_provider, so it raises TypeError and the handler leaves the service
off; the ok branch transcribes the difficulty logic of lines 78-90. -/
def init_ai_service (g : GameState) (env : Env) : GameState :=
  match callGetAiProvider ["cli_api_key", "cli_endpoint", "cli_model"] env with
  | Except.error _ => { g with use_ai_service := false }
  | Except.ok (prov, cfg) =>
    let g := { g with ai_provider := prov, ai_config := some cfg }
    if g.difficulty = "ai" then
      if cfg.provider ≠ AIProviderType.traditional ∧ prov.isSome then
        { g with use_ai_service := true }
      else { g with use_ai_service := false }
    else { g with use_ai_service := false }

/-- GomokuGame.__init__ (game.py lines 23-67) followed by _init_ai_service:
the construction arguments are the difficulty and the three cli overrides;
env is everything the process could read from the environment or files. -/
def initGame (difficulty : String) (cliApiKey cliEndpoint cliModel : Option String)
    (env : Env) : GameState :=
  let base : GameState :=
    { difficulty := difficulty
      board := Board.new
      traditional_ai := { difficulty := difficulty }
      current_player := Cell.black
      game_over := false
      winner := none
      turn := 0
      use_ai_service := false
      ai_provider := none
      ai_config := none }
  init_ai_service base env

/-- GomokuGame._handle_ai_turn (game.py lines 238-268).  serviceMove is the
value _get_ai_service_move would produce; it is consulted only when the AI
service is enabled and a provider exists.  The boolean result of place_stone
is not inspected, exactly as in the source (line 257). -/
def handleAiTurn (g : GameState) (serviceMove : Option (Int × Int)) : GameState :=
  let svc := if g.use_ai_service && g.ai_provider.isSome then serviceMove else none
  let ai_move :=
    match svc with
    | some m => some m
    | none => GomokuAI.get_move g.traditional_ai g.board Cell.white
  match ai_move with
  | some m =>
    let b2 := (place_stone g.board m.1 m.2 Cell.white).2
    if check_win b2 m.1 m.2 then
      { g with board := b2, game_over := true, winner := some Winner.white }
    else
      { g with board := b2, current_player := Cell.black }
  | none => { g with game_over := true, winner := some Winner.draw }

/-! Chat context manager (chat_manager.py). -/

/-- ChatMessage dataclass (ai_provider.py lines 32-36). -/
structure ChatMessage where
  role : String
  content : String
deriving DecidableEq, Repr

/-- ChatManager dataclass (chat_manager.py lines 12-21): bounded history with
default bound 10. -/
structure ChatManager where
  max_history : Nat := 10
  history : List ChatMessage := []
deriving DecidableEq, Repr

/-- The _trim_history while loop (chat_manager.py lines 56-59): pop the
oldest message while the history exceeds the bound. -/
def trimLoop (maxH : Nat) : List ChatMessage → List ChatMessage
  | [] => []
  | m :: rest =>
    if maxH < rest.length + 1 then trimLoop maxH rest else m :: rest

/-- ChatManager._trim_history applied to the instance. -/
def ChatManager.trim_history (c : ChatManager) : ChatManager :=
  { c with history := trimLoop c.max_history c.history }

/-- ChatManager.add_user_message (chat_manager.py lines 23-31). -/
def ChatManager.add_user_message (c : ChatManager) (content : String) :
    ChatManager :=
  ChatManager.trim_history
    { c with history := c.history ++ [{ role := "user", content := content }] }

/-- ChatManager.add_assistant_message (chat_manager.py lines 33-41). -/
def ChatManager.add_assistant_message (c : ChatManager) (content : String) :
    ChatManager :=
  ChatManager.trim_history
    { c with
      history := c.history ++ [{ role := "assistant", content := content }] }

/-- ChatManager.clear_history (chat_manager.py lines 52-54). -/
def ChatManager.clear_history (c : ChatManager) : ChatManager :=
  { c with history := [] }

/-- ChatManager.get_history (chat_manager.py lines 43-50): the source returns
history.copy(), a fresh list holding the same messages; the embedding returns
that value. -/
def ChatManager.get_history (c : ChatManager) : List ChatMessage :=
  c.history

/-- ChatManager.get_recent_messages (chat_manager.py lines 61-71): the Python
slice history[-count:] when the history is long enough (note that -0 slices
the whole list), otherwise a copy of the whole history. -/
def ChatManager.get_recent_messages (c : ChatManager) (count : Nat) :
    List ChatMessage :=
  if count ≤ c.history.length then
    if count = 0 then c.history
    else c.history.drop (c.history.length - count)
  else c.history

/-- One mutating call on a ChatManager. -/
inductive ChatOp where
  | user : String → ChatOp
  | assistant : String → ChatOp
  | clear : ChatOp
deriving DecidableEq, Repr

/-- Apply one call. -/
def applyChatOp (c : ChatManager) (op : ChatOp) : ChatManager :=
  match op with
  | ChatOp.user s => c.add_user_message s
  | ChatOp.assistant s => c.add_assistant_message s
  | ChatOp.clear => c.clear_history

/-- Apply a call sequence, oldest first. -/
def applyChatOps (c : ChatManager) (ops : List ChatOp) : ChatManager :=
  ops.foldl applyChatOp c

/-- Reference stream from a starting list: every message appended since the
last clear, in order, with no bound applied. -/
def chatMsgsFrom (l : List ChatMessage) (ops : List ChatOp) : List ChatMessage :=
  ops.foldl
    (fun l op =>
      match op with
      | ChatOp.user s => l ++ [{ role := "user", content := s }]
      | ChatOp.assistant s => l ++ [{ role := "assistant", content := s }]
      | ChatOp.clear => [])
    l

/-- Reference stream: every message appended since the last clear, in order,
with no bound applied. -/
def chatOpsMessages (ops : List ChatOp) : List ChatMessage :=
  chatMsgsFrom [] ops

/-! Prompt building and response parsing (ai_provider.py), over lists of
characters; a Python str is its list of characters. -/

/-- PromptBuilder.COL_LABELS (ai_provider.py line 123): twenty letters A-T. -/
def COL_LABELS : List Char := "ABCDEFGHIJKLMNOPQRST".toList

/-- A character of a \w regex class: letter, digit or underscore. -/
def isWordChar (c : Char) : Bool := c.isAlphanum || c = '_'

/-- Python str.strip: drop whitespace from both ends. -/
def pyStrip (l : List Char) : List Char :=
  ((l.dropWhile Char.isWhitespace).reverse.dropWhile Char.isWhitespace).reverse

/-- Decimal digits with explicit fuel; the fuel only needs to exceed the
digit count. -/
def natDigitsAux : Nat → Nat → List Char
  | 0, _ => []
  | fuel + 1, n =>
    if n < 10 then [Char.ofNat (48 + n)]
    else natDigitsAux fuel (n / 10) ++ [Char.ofNat (48 + n % 10)]

/-- Decimal digits of a natural number, most significant first (Python
str(n) for n at least 0). -/
def natDigits (n : Nat) : List Char :=
  natDigitsAux (n + 1) n

/-- Python str(i) for an integer. -/
def intDigits (i : Int) : List Char :=
  if i < 0 then '-' :: natDigits i.natAbs else natDigits i.natAbs

/-- Value of a digit list, most significant first. -/
def digitsToNat (l : List Char) : Nat :=
  l.foldl (fun a c => 10 * a + (c.toNat - 48)) 0

/-- Python int(s) on the strings reachable here: optional surrounding
whitespace, an optional sign, then at least one digit; anything else raises
ValueError, modelled as none. -/
def parsePyInt (l : List Char) : Option Int :=
  let l := pyStrip l
  let core : List Char → Option Nat := fun ds =>
    if ds ≠ [] ∧ ds.all Char.isDigit then some (digitsToNat ds) else none
  match l with
  | '+' :: rest => (core rest).map fun n => (n : Int)
  | '-' :: rest => (core rest).map fun n => -(n : Int)
  | _ => (core l).map fun n => (n : Int)

/-- PromptBuilder.coords_to_position (ai_provider.py lines 201-206). -/
def coords_to_position (row col : Int) : List Char :=
  if 0 ≤ col ∧ col < (COL_LABELS.length : Int) then
    COL_LABELS.getD col.toNat ' ' :: intDigits (row + 1)
  else
    '(' :: intDigits row ++ ", ".toList ++ intDigits col ++ [')']

/-- PromptBuilder.position_to_coords (ai_provider.py lines 314-353): strip and
upcase, check the length, resolve the column letter against COL_LABELS and the
row digits against the board size; every failure returns none. -/
def position_to_coords (position : List Char) (board_size : Nat) :
    Option (Int × Int) :=
  let position := (pyStrip position).map Char.toUpper
  if position.length < 2 ∨ 3 < position.length then none
  else
    match position with
    | [] => none
    | col_char :: row_str =>
      if col_char ∈ COL_LABELS then
        let col := COL_LABELS.indexOf col_char
        if board_size ≤ col then none
        else
          match parsePyInt row_str with
          | none => none
          | some v =>
            let row := v - 1
            if row < 0 ∨ (board_size : Int) ≤ row then none
            else some (row, (col : Int))
      else none

/-- Split a character list on a separator, keeping empty segments, as Python
str.split does with an explicit separator. -/
def splitOnChar (sep : Char) : List Char → List (List Char)
  | [] => [[]]
  | c :: rest =>
    let r := splitOnChar sep rest
    if c = sep then [] :: r
    else
      match r with
      | [] => [[c]]
      | h :: t => (c :: h) :: t

/-- Column letters the alternative-format regex accepts
(ai_provider.py line 416, character class A-Y and a-y). -/
def isAltLetter (c : Char) : Bool :=
  if ('A' ≤ c ∧ c ≤ 'Y') ∨ ('a' ≤ c ∧ c ≤ 'y') then true else false

/-- Match of ([A-Ya-y])(digits) at the head of the list with one or two
digits followed by a word boundary, as the regex of
ResponseParser._try_alternative_formats requires. -/
def matchAltAt : List Char → Option (Char × List Char)
  | [] => none
  | ch :: rest =>
    if isAltLetter ch then
      let ds := rest.takeWhile Char.isDigit
      if ds.length = 0 ∨ 2 < ds.length then none
      else
        match rest.drop ds.length with
        | [] => some (ch, ds)
        | nxt :: _ => if isWordChar nxt then none else some (ch, ds)
    else none

/-- Left-to-right scan realizing the first alternative format of
ResponseParser._try_alternative_formats (ai_provider.py lines 415-424): at
each word boundary try the letter-digits pattern, convert through
position_to_coords, and return the first in-range hit. -/
def scanAlt (bs : Nat) : Option Char → List Char → Option (Int × Int)
  | _, [] => none
  | prev, ch :: rest =>
    let boundaryOk :=
      match prev with
      | none => true
      | some pc => !isWordChar pc
    let next := scanAlt bs (some ch) rest
    if boundaryOk then
      match matchAltAt (ch :: rest) with
      | some (c0, ds) =>
        match position_to_coords (c0 :: ds) bs with
        | some (r, c1) =>
          if 0 ≤ r ∧ r < (bs : Int) ∧ 0 ≤ c1 ∧ c1 < (bs : Int) then some (r, c1)
          else next
        | none => next
      | none => next
    else next

/-- Match of the literal (digits, digits) pattern at the head of the list,
exactly the second regex of ResponseParser._try_alternative_formats
(ai_provider.py lines 427-436): one or two digits each, optional whitespace
around the comma. -/
def matchParenAt : List Char → Option (Nat × Nat)
  | '(' :: rest =>
    let ds1 := rest.takeWhile Char.isDigit
    if ds1.length = 0 ∨ 2 < ds1.length then none
    else
      let rest1 := (rest.drop ds1.length).dropWhile Char.isWhitespace
      match rest1 with
      | ',' :: rest2 =>
        let rest2 := rest2.dropWhile Char.isWhitespace
        let ds2 := rest2.takeWhile Char.isDigit
        if ds2.length = 0 ∨ 2 < ds2.length then none
        else
          match rest2.drop ds2.length with
          | ')' :: _ => some (digitsToNat ds1, digitsToNat ds2)
          | _ => none
      | _ => none
  | _ => none

/-- Left-to-right scan for the numeric (row, col) format, returning the first
in-range hit. -/
def scanParen (bs : Nat) : List Char → Option (Int × Int)
  | [] => none
  | ch :: rest =>
    match matchParenAt (ch :: rest) with
    | some (r, c) =>
      if r < bs ∧ c < bs then some ((r : Int), (c : Int))
      else scanParen bs rest
    | none => scanParen bs rest

/-- ResponseParser._try_alternative_formats (ai_provider.py lines 403-438):
the letter format first, then the numeric format. -/
def try_alternative_formats (response : List Char) (bs : Nat) :
    Option (Int × Int) :=
  match scanAlt bs none response with
  | some rc => some rc
  | none => scanParen bs response

/-- Leading MOVE: marker test on an already upcased line. -/
def startsWithMove (l : List Char) : Bool :=
  List.isPrefixOf "MOVE:".toList l

/-- ResponseParser.parse_move_response (ai_provider.py lines 363-401), with
the collected reasoning text dropped: scan the lines for the last successful
MOVE: position, keep it if in range, otherwise fall back to the alternative
formats. -/
def parse_move_response (response : List Char) (bs : Nat) :
    Option (Int × Int) :=
  let lines := (splitOnChar '\n' (pyStrip response)).map pyStrip
  let position :=
    lines.foldl
      (fun acc line =>
        if startsWithMove (line.map Char.toUpper) then
          match position_to_coords (pyStrip (line.drop 5)) bs with
          | some rc => some rc
          | none => acc
        else acc)
      none
  match position with
  | some (r, c) =>
    if 0 ≤ r ∧ r < (bs : Int) ∧ 0 ≤ c ∧ c < (bs : Int) then some (r, c)
    else try_alternative_formats response bs
  | none => try_alternative_formats response bs

/-- Move outcomes of the provider that matter here (MoveResult enumeration,
ai_provider.py lines 13-19, collapsed to the cases the model can reach). -/
inductive AIMoveOutcome where
  | success : Int → Int → AIMoveOutcome
  | parse_error : AIMoveOutcome
deriving DecidableEq, Repr

/-- OpenAIProvider.get_move (providers/openai_provider.py lines 69-139): the
retry loop over the successive completion texts; a parsed position is accepted
only when the snapshot cell it names is empty (line 110), otherwise the next
attempt runs; exhaustion is a parse error.  The suggested move is threaded
because the source embeds it into the prompt; it does not constrain the
reply. -/
def openaiGetMove (board : List (List Cell)) (bs : Nat)
    (suggested : Option (Int × Int)) : List (List Char) → AIMoveOutcome
  | [] => AIMoveOutcome.parse_error
  | resp :: rest =>
    match parse_move_response resp bs with
    | some (r, c) =>
      if ((board.get? r.toNat).bind fun row => row.get? c.toNat)
          = some Cell.empty then
        AIMoveOutcome.success r c
      else openaiGetMove board bs suggested rest
    | none => openaiGetMove board bs suggested rest

/-- The non-binding suggestion GomokuGame._get_ai_service_move forwards to
the provider: a fresh medium-tier traditional engine's move for white
(game.py lines 282-284). -/
def ai_service_suggestion (b : Board) : Option (Int × Int) :=
  GomokuAI.get_move { difficulty := "medium" } b Cell.white

/-- GomokuGame._get_ai_service_move (game.py lines 270-311): compute the
medium-tier traditional suggestion, call the provider with the live grid, the
board size and that suggestion, and forward the position only on success. -/
def get_ai_service_move (b : Board) (responses : List (List Char)) :
    Option (Int × Int) :=
  match openaiGetMove b.grid b.size (ai_service_suggestion b) responses with
  | AIMoveOutcome.success r c => some (r, c)
  | AIMoveOutcome.parse_error => none

/-! Declared board-size defaults of the adapter module (claim C7). -/

/-- Default of the board_size parameter of the abstract AIProvider.get_move
(ai_provider.py line 60). -/
def aiProviderGetMoveDefault : Nat := 15

/-- Default of the board_size parameter of PromptBuilder.build_move_prompt
(ai_provider.py line 131). -/
def buildMovePromptDefault : Nat := 20

/-- Default of the board_size parameter of OpenAIProvider.get_move
(providers/openai_provider.py line 74). -/
def openaiGetMoveDefault : Nat := 20

/-- Default of the board_size parameter in the signature of
PromptBuilder.position_to_coords (ai_provider.py line 315). -/
def positionToCoordsSignatureDefault : Nat := 20

/-- Board size the docstring of PromptBuilder.position_to_coords documents as
the default (ai_provider.py line 325: a default of 25), transcribed. -/
def positionToCoordsDocumentedDefault : Nat := 25

/-! Concrete boards and states used by witnesses and counterexamples. -/

/-- An empty n by n board. -/
def emptyBoard (n : Nat) : Board :=
  { size := n
    grid := List.replicate n (List.replicate n Cell.empty)
    history := []
    last_move := none }

/-- A 9 by 9 board whose cell (7, 7) is occupied by black. -/
def bOccupied : Board := (place_stone (emptyBoard 9) 7 7 Cell.black).2

/-- A game state in the AI-service configuration, white to move, over
bOccupied. -/
def gServiceOn : GameState :=
  { difficulty := "ai"
    board := bOccupied
    traditional_ai := { difficulty := "ai" }
    current_player := Cell.white
    game_over := false
    winner := none
    turn := 1
    use_ai_service := true
    ai_provider := some ProviderKind.openai
    ai_config := none }

/-- A 9 by 9 board with one black stone at the center. -/
def bCenterStone : Board := (place_stone (emptyBoard 9) 4 4 Cell.black).2

/-- The empty board with a bookkeeping history entry: same snapshot as
emptyBoard 9, different instance state. -/
def bHistoryOnly : Board :=
  { emptyBoard 9 with
    history := [(4, 4, Cell.black)]
    last_move := some (4, 4, Cell.black) }

end Gomoku

namespace Gomoku

/-! Helper lemmas. -/

theorem getCell_some_range {b : Board} {r c : Int} {x : Cell}
    (h : getCell b r c = some x) :
    0 ≤ r ∧ r < (b.size : Int) ∧ 0 ≤ c ∧ c < (b.size : Int) := by
  unfold getCell at h
  split at h
  · assumption
  · exact absurd h (by simp)

theorem getCell_congr {b1 b2 : Board} (hs : b1.size = b2.size)
    (hg : b1.grid = b2.grid) (r c : Int) : getCell b1 r c = getCell b2 r c := by
  unfold getCell
  rw [hs, hg]

theorem countDir_congr {b1 b2 : Board} (hs : b1.size = b2.size)
    (hg : b1.grid = b2.grid) (p : Cell) (r c dr dc : Int) (fuel : Nat) :
    countDir b1 p r c dr dc fuel = countDir b2 p r c dr dc fuel := by
  induction fuel generalizing r c with
  | zero => rfl
  | succ n ih =>
    unfold countDir
    rw [getCell_congr hs hg]
    split
    · rw [ih]
    · rfl

theorem evaluate_direction_congr {b1 b2 : Board} (hs : b1.size = b2.size)
    (hg : b1.grid = b2.grid) (p : Cell) (r c dr dc : Int) :
    evaluate_direction b1 p r c dr dc = evaluate_direction b2 p r c dr dc := by
  unfold evaluate_direction
  rw [hs]
  simp only [countDir_congr hs hg, getCell_congr hs hg]

theorem cellLineScore_congr {b1 b2 : Board} (hs : b1.size = b2.size)
    (hg : b1.grid = b2.grid) (p : Cell) (r c : Int) :
    cellLineScore b1 p r c = cellLineScore b2 p r c := by
  unfold cellLineScore dirs
  simp only [List.foldl, evaluate_direction_congr hs hg]

/-! Claim theorems. -/

/-- C7: the board dimension defaults and column alphabets of the adapter
module disagree: the abstract get_move default is 15, build_move_prompt and
the OpenAI get_move default to 20 over the twenty letters A to T, while the
alternative-format pattern accepts the twenty-five letters A to Y and the
position_to_coords docstring documents a default of 25 against a declared
default of 20. -/
theorem c7_inconsistent_defaults :
    aiProviderGetMoveDefault = 15 ∧
    buildMovePromptDefault = 20 ∧
    openaiGetMoveDefault = 20 ∧
    aiProviderGetMoveDefault ≠ buildMovePromptDefault ∧
    COL_LABELS.length = 20 ∧
    ("ABCDEFGHIJKLMNOPQRSTUVWXYZ".toList.filter isAltLetter).length = 25 ∧
    isAltLetter 'Y' = true ∧ ('Y' ∈ COL_LABELS → False) ∧
    positionToCoordsDocumentedDefault = 25 ∧
    positionToCoordsSignatureDefault = 20 ∧
    positionToCoordsDocumentedDefault ≠ positionToCoordsSignatureDefault := by
  decide

/-- C5: whatever difficulty, cli arguments and environment the game is
constructed with, _init_ai_service ends with the AI service disabled and no
provider, because the parameterless get_ai_provider is called with three
keyword arguments and the TypeError lands in the handler; every AI turn is
therefore independent of the service move and falls back to the traditional
engine. -/
theorem c5_service_always_disabled (d : String) (k e m : Option String)
    (env : Env) :
    (initGame d k e m env).use_ai_service = false ∧
    (initGame d k e m env).ai_provider = none ∧
    (∀ s : Option (Int × Int),
      handleAiTurn (initGame d k e m env) s
        = handleAiTurn (initGame d k e m env) none) := by
  refine ⟨rfl, rfl, fun s => ?_⟩
  rfl

/-- C6 counterexample: no construction argument carries a board size; every
construction, whatever its difficulty, cli overrides and environment, yields
the one fixed size 25 of the hidden class constant Board.SIZE, so board size
is not supplied at construction time by the caller. -/
theorem c6_counterexample :
    (initGame "easy" none none none {}).board.size = 25 ∧
    (initGame "hard" (some "sk-test") (some "https://api.example") (some "gpt-4o")
        { aiProvider := some "openai", aiApiKey := some "sk-env"
          configFile := some { provider := some "anthropic" } }).board.size = 25 ∧
    (initGame "easy" none none none {}).board.size
      = (initGame "hard" (some "sk-test") (some "https://api.example")
          (some "gpt-4o")
          { aiProvider := some "openai", aiApiKey := some "sk-env"
            configFile := some { provider := some "anthropic" } }).board.size := by
  exact ⟨rfl, rfl, rfl⟩

/-- C6 (amended): the board size is the fixed constant Board.SIZE rather than
a construction argument; the difficulty tier is supplied at construction; the
core reads no environment variables or configuration files: two constructions
with equal arguments and arbitrarily different environments have identical
board size and identical traditional move selection. -/
theorem c6_core_env_independent (d : String) (k e m : Option String)
    (env1 env2 : Env) :
    (initGame d k e m env1).board.size = (initGame d k e m env2).board.size ∧
    (initGame d k e m env1).board.size = BOARD_SIZE ∧
    (initGame d k e m env1).traditional_ai.difficulty = d ∧
    (∀ (b : Board) (p : Cell),
      (initGame d k e m env1).traditional_ai.get_move b p
        = (initGame d k e m env2).traditional_ai.get_move b p) := by
  exact ⟨rfl, rfl, rfl, fun b p => rfl⟩

/-- C8: the threat evaluator is a pure function of the board snapshot: two
boards with the same size and the same grid — whatever their history or cached
last move — give every (cell, player) query the same score. -/
theorem c8_evaluator_deterministic (b1 b2 : Board) (r c : Int) (p : Cell)
    (hs : b1.size = b2.size) (hg : b1.grid = b2.grid) :
    evaluate_point b1 r c p = evaluate_point b2 r c p := by
  unfold evaluate_point
  rw [cellLineScore_congr hs hg, cellLineScore_congr hs hg]

/-- C8 witness: the empty board and the same snapshot carrying a differing
history and last move score the center identically. -/
theorem c8_witness :
    (emptyBoard 9).size = bHistoryOnly.size ∧
    (emptyBoard 9).grid = bHistoryOnly.grid ∧
    evaluate_point (emptyBoard 9) 4 4 Cell.black
      = evaluate_point bHistoryOnly 4 4 Cell.black :=
  ⟨rfl, rfl, c8_evaluator_deterministic (emptyBoard 9) bHistoryOnly 4 4
    Cell.black rfl rfl⟩

theorem trimLoop_eq_drop (maxH : Nat) (l : List ChatMessage) :
    trimLoop maxH l = l.drop (l.length - maxH) := by
  induction l with
  | nil => simp [trimLoop]
  | cons m rest ih =>
    unfold trimLoop
    split
    · next hlt =>
      rw [ih]
      have : (m :: rest).length - maxH = (rest.length - maxH) + 1 := by
        simp only [List.length_cons]; omega
      rw [this, List.drop_succ_cons]
    · next hge =>
      have : (m :: rest).length - maxH = 0 := by
        simp only [List.length_cons]; omega
      rw [this, List.drop_zero]

theorem applyChatOp_max (c : ChatManager) (op : ChatOp) :
    (applyChatOp c op).max_history = c.max_history := by
  cases op <;> rfl

theorem add_msg_drop (c : ChatManager) (l : List ChatMessage)
    (msg : ChatMessage) (h : c.history = l.drop (l.length - c.max_history)) :
    trimLoop c.max_history (c.history ++ [msg])
      = (l ++ [msg]).drop ((l ++ [msg]).length - c.max_history) := by
  have hlen : c.history.length = l.length - (l.length - c.max_history) := by
    rw [h, List.length_drop]
  have hk : l.length - c.max_history ≤ l.length := by omega
  rw [trimLoop_eq_drop, h, ← List.drop_append_of_le_length hk, List.drop_drop]
  congr 1
  simp only [List.length_append, List.length_drop, List.length_cons,
    List.length_nil]
  omega

theorem applyChatOps_drop (ops : List ChatOp) :
    ∀ (c : ChatManager) (l : List ChatMessage),
      c.history = l.drop (l.length - c.max_history) →
      (applyChatOps c ops).max_history = c.max_history ∧
      (applyChatOps c ops).history
        = (chatMsgsFrom l ops).drop
            ((chatMsgsFrom l ops).length - c.max_history) := by
  induction ops with
  | nil => intro c l h; exact ⟨rfl, h⟩
  | cons op rest ih =>
    intro c l h
    have hstep : applyChatOps c (op :: rest)
        = applyChatOps (applyChatOp c op) rest := rfl
    have hmax := applyChatOp_max c op
    cases op with
    | user s =>
      have hnext : (applyChatOp c (ChatOp.user s)).history
          = (l ++ [({ role := "user", content := s } : ChatMessage)]).drop
              ((l ++ [({ role := "user", content := s } : ChatMessage)]).length
                - (applyChatOp c (ChatOp.user s)).max_history) := by
        rw [hmax]
        exact add_msg_drop c l _ h
      have := ih (applyChatOp c (ChatOp.user s))
        (l ++ [({ role := "user", content := s } : ChatMessage)]) hnext
      rw [hstep]
      rw [hmax] at this
      exact ⟨this.1, this.2⟩
    | assistant s =>
      have hnext : (applyChatOp c (ChatOp.assistant s)).history
          = (l ++ [({ role := "assistant", content := s } : ChatMessage)]).drop
              ((l ++ [({ role := "assistant", content := s } : ChatMessage)]).length
                - (applyChatOp c (ChatOp.assistant s)).max_history) := by
        rw [hmax]
        exact add_msg_drop c l _ h
      have := ih (applyChatOp c (ChatOp.assistant s))
        (l ++ [({ role := "assistant", content := s } : ChatMessage)]) hnext
      rw [hstep]
      rw [hmax] at this
      exact ⟨this.1, this.2⟩
    | clear =>
      have hnext : (applyChatOp c ChatOp.clear).history
          = ([] : List ChatMessage).drop
              (([] : List ChatMessage).length
                - (applyChatOp c ChatOp.clear).max_history) := by
        simp [applyChatOp, ChatManager.clear_history]
      have := ih (applyChatOp c ChatOp.clear) [] hnext
      rw [hstep]
      rw [hmax] at this
      exact ⟨this.1, this.2⟩

/-- C9: after any sequence of add_user_message, add_assistant_message and
clear_history calls on a fresh manager with bound M, the stored history is
exactly the last M messages appended since the last clear — the bound always
holds and trimming removes oldest-first — the default bound is 10, and
get_history returns the history value (the source returns a fresh copy of
it). -/
theorem c9_history_bounded (M : Nat) (ops : List ChatOp) :
    (applyChatOps { max_history := M, history := [] } ops).history
      = (chatOpsMessages ops).drop ((chatOpsMessages ops).length - M) ∧
    (applyChatOps { max_history := M, history := [] } ops).history.length ≤ M ∧
    ({} : ChatManager).max_history = 10 ∧
    (∀ c : ChatManager, c.get_history = c.history) := by
  have h := applyChatOps_drop ops { max_history := M, history := [] } [] (by simp)
  refine ⟨h.2, ?_, rfl, fun c => rfl⟩
  have hm : ({ max_history := M, history := [] } : ChatManager).max_history
      = M := rfl
  rw [h.2, List.length_drop, hm]
  omega

/-- C1: place succeeds exactly on a legal move — row and column inside
[0, N) and the target cell empty; on success the target cell now holds the
stone while every other cell is untouched (exactly one stone added), the move
is appended to the history and the cached last move is updated; on an illegal
move the whole board state is returned unchanged.  place_stone is a total
function, so no error is ever raised. -/
theorem c1_place_contract (b : Board) (r c : Int) (p : Cell) (hwf : b.wf) :
    ((place_stone b r c p).1 = true ↔
      (0 ≤ r ∧ r < (b.size : Int) ∧ 0 ≤ c ∧ c < (b.size : Int) ∧
        getCell b r c = some Cell.empty)) ∧
    ((place_stone b r c p).1 = true →
      getCell (place_stone b r c p).2 r c = some p ∧
      (∀ r' c' : Int, ¬(r' = r ∧ c' = c) →
        getCell (place_stone b r c p).2 r' c' = getCell b r' c') ∧
      (place_stone b r c p).2.history = b.history ++ [(r, c, p)] ∧
      (place_stone b r c p).2.last_move = some (r, c, p)) ∧
    ((place_stone b r c p).1 = false → (place_stone b r c p).2 = b) := by
  by_cases hleg : getCell b r c = some Cell.empty
  · obtain ⟨hr0, hrs, hc0, hcs⟩ := getCell_some_range hleg
    have hrn : r.toNat < b.grid.length := by rw [hwf.1]; omega
    have hrowlen : (b.grid.getD r.toNat []).length = b.size := by
      rw [List.getD_eq_getElem b.grid [] hrn]
      exact hwf.2 _ (List.getElem_mem hrn)
    have hcn : c.toNat < (b.grid.getD r.toNat []).length := by
      rw [hrowlen]; omega
    have hfst : (place_stone b r c p).1 = true := by
      simp [place_stone, hleg]
    refine ⟨?_, ?_, ?_⟩
    · simp only [hfst, true_iff]
      exact ⟨hr0, hrs, hc0, hcs, hleg⟩
    · intro _
      have hgrid : (place_stone b r c p).2.grid
          = b.grid.set r.toNat ((b.grid.getD r.toNat []).set c.toNat p) := by
        simp [place_stone, hleg]
      have hsize : (place_stone b r c p).2.size = b.size := by
        simp [place_stone, hleg]
      have houter : (b.grid.set r.toNat
            ((b.grid.getD r.toNat []).set c.toNat p)).getD r.toNat []
          = (b.grid.getD r.toNat []).set c.toNat p := by
        rw [List.getD_eq_getElem?_getD, List.getElem?_set_self hrn,
          Option.getD_some]
      have houterNe : ∀ rn' : Nat, rn' ≠ r.toNat →
          (b.grid.set r.toNat
            ((b.grid.getD r.toNat []).set c.toNat p)).getD rn' []
          = b.grid.getD rn' [] := by
        intro rn' hners
        rw [List.getD_eq_getElem?_getD,
          List.getElem?_set_ne (fun h => hners h.symm),
          ← List.getD_eq_getElem?_getD]
      refine ⟨?_, ?_, ?_, ?_⟩
      · unfold getCell
        rw [hsize, hgrid, if_pos ⟨hr0, hrs, hc0, hcs⟩, houter,
          List.getD_eq_getElem?_getD, List.getElem?_set_self hcn,
          Option.getD_some]
      · intro r' c' hne
        unfold getCell
        rw [hsize, hgrid]
        split
        · next hin =>
          obtain ⟨hr0', hrs', hc0', hcs'⟩ := hin
          by_cases hrr : r'.toNat = r.toNat
          · have hreq : r' = r := by omega
            have hcne : ¬(c' = c) := fun hc => hne ⟨hreq, hc⟩
            have hcnn : c.toNat ≠ c'.toNat := by omega
            rw [hrr, houter, List.getD_eq_getElem?_getD,
              List.getElem?_set_ne hcnn, ← List.getD_eq_getElem?_getD]
          · rw [houterNe r'.toNat hrr]
        · rfl
      · simp [place_stone, hleg]
      · simp [place_stone, hleg]
    · intro hfalse
      rw [hfst] at hfalse
      exact absurd hfalse (by simp)
  · have hfst : (place_stone b r c p).1 = false := by
      simp [place_stone, hleg]
    refine ⟨?_, ?_, ?_⟩
    · rw [hfst]
      simp only [Bool.false_eq_true, false_iff]
      intro hcontra
      exact hleg hcontra.2.2.2.2
    · intro htrue
      rw [hfst] at htrue
      exact absurd htrue (by simp)
    · intro _
      simp [place_stone, hleg]

/-- C1 witness: on the empty 3 by 3 board the move (1, 1) is accepted. -/
theorem c1_witness : (place_stone (emptyBoard 3) 1 1 Cell.black).1 = true :=
  ((c1_place_contract (emptyBoard 3) 1 1 Cell.black (by decide)).1).mpr
    (by decide)

/-- C10: for every board size up to 20 and every in-range coordinate pair,
position_to_coords inverts coords_to_position exactly; and whenever
position_to_coords answers at all, the answered coordinates are inside
[0, board_size) in both components — an out-of-range column letter or row
number always yields none. -/
theorem c10_coords_roundtrip :
    (∀ bs : Nat, bs ≤ 20 → ∀ row : Nat, row < bs → ∀ col : Nat, col < bs →
      position_to_coords (coords_to_position (row : Int) (col : Int)) bs
        = some ((row : Int), (col : Int))) ∧
    (∀ (s : List Char) (bs : Nat) (r c : Int),
      position_to_coords s bs = some (r, c) →
      0 ≤ r ∧ r < (bs : Int) ∧ 0 ≤ c ∧ c < (bs : Int)) := by
  constructor
  · decide
  · intro s bs r c h
    unfold position_to_coords at h
    dsimp only at h
    split at h
    · exact absurd h (by simp)
    · split at h
      · exact absurd h (by simp)
      · next pos0 col_char row_str heq =>
        split at h
        · next hmem =>
          split at h
          · exact absurd h (by simp)
          · next hcollt =>
            split at h
            · exact absurd h (by simp)
            · next v hveq =>
              split at h
              · exact absurd h (by simp)
              · next hrow =>
                have hinj := Option.some.inj h
                have hr : v - 1 = r := congrArg Prod.fst hinj
                have hc : ((COL_LABELS.indexOf col_char : Nat) : Int) = c :=
                  congrArg Prod.snd hinj
                push_neg at hrow hcollt
                refine ⟨by omega, by omega, ?_, ?_⟩
                · rw [← hc]; positivity
                · rw [← hc]; exact_mod_cast hcollt
        · exact absurd h (by simp)

theorem scanParen_range {bs : Nat} {r c : Int} :
    ∀ l : List Char, scanParen bs l = some (r, c) →
      0 ≤ r ∧ r < (bs : Int) ∧ 0 ≤ c ∧ c < (bs : Int) := by
  intro l
  induction l with
  | nil => intro h; exact absurd h (by simp [scanParen])
  | cons ch rest ih =>
    intro h
    unfold scanParen at h
    split at h
    · next a b hm =>
      split at h
      · next hlt =>
        have hinj := Option.some.inj h
        have h1 : ((a : Nat) : Int) = r := congrArg Prod.fst hinj
        have h2 : ((b : Nat) : Int) = c := congrArg Prod.snd hinj
        omega
      · exact ih h
    · exact ih h

theorem scanAlt_range {bs : Nat} {r c : Int} :
    ∀ (prev : Option Char) (l : List Char),
      scanAlt bs prev l = some (r, c) →
      0 ≤ r ∧ r < (bs : Int) ∧ 0 ≤ c ∧ c < (bs : Int) := by
  intro prev l
  induction l generalizing prev with
  | nil => intro h; exact absurd h (by simp [scanAlt])
  | cons ch rest ih =>
    intro h
    unfold scanAlt at h
    dsimp only at h
    split at h
    · split at h
      · next c0 ds hm =>
        split at h
        · next r1 c1 hp =>
          split at h
          · next hin =>
            have hinj := Option.some.inj h
            have h1 : r1 = r := congrArg Prod.fst hinj
            have h2 : c1 = c := congrArg Prod.snd hinj
            subst h1; subst h2
            exact hin
          · exact ih (some ch) h
        · exact ih (some ch) h
      · exact ih (some ch) h
    · exact ih (some ch) h

theorem try_alternative_formats_range {bs : Nat} {r c : Int}
    {resp : List Char} (h : try_alternative_formats resp bs = some (r, c)) :
    0 ≤ r ∧ r < (bs : Int) ∧ 0 ≤ c ∧ c < (bs : Int) := by
  unfold try_alternative_formats at h
  split at h
  · next rc hrc =>
    cases rc with
    | mk r0 c0 =>
      have hinj := Option.some.inj h
      have h1 : r0 = r := congrArg Prod.fst hinj
      have h2 : c0 = c := congrArg Prod.snd hinj
      subst h1; subst h2
      exact scanAlt_range none resp hrc
  · exact scanParen_range resp h

theorem parse_move_response_range {bs : Nat} {r c : Int}
    {resp : List Char} (h : parse_move_response resp bs = some (r, c)) :
    0 ≤ r ∧ r < (bs : Int) ∧ 0 ≤ c ∧ c < (bs : Int) := by
  unfold parse_move_response at h
  dsimp only at h
  split at h
  · split at h
    · next hin =>
      cases h
      exact hin
    · exact try_alternative_formats_range h
  · exact try_alternative_formats_range h

theorem openaiGetMove_success {board : List (List Cell)} {bs : Nat}
    {sugg : Option (Int × Int)} {r c : Int} :
    ∀ rs : List (List Char),
      openaiGetMove board bs sugg rs = AIMoveOutcome.success r c →
      (((board.get? r.toNat).bind fun row => row.get? c.toNat)
          = some Cell.empty) ∧
      0 ≤ r ∧ r < (bs : Int) ∧ 0 ≤ c ∧ c < (bs : Int) := by
  intro rs
  induction rs with
  | nil => intro h; exact absurd h (by simp [openaiGetMove])
  | cons resp rest ih =>
    intro h
    unfold openaiGetMove at h
    split at h
    · next r0 c0 hp =>
      split at h
      · next hcell =>
        have h1 : r0 = r := by cases h; rfl
        have h2 : c0 = c := by cases h; rfl
        subst h1; subst h2
        exact ⟨hcell, parse_move_response_range hp⟩
      · exact ih h
    · exact ih h

/-- C3 counterexample: the caller of the AI-service move does not check the
boolean outcome of the placement.  On a board whose (7, 7) is occupied, a
service move (7, 7) fails to place — the board and its history are unchanged
— yet _handle_ai_turn still treats the move as applied and hands the turn to
the human player. -/
theorem c3_counterexample :
    (place_stone bOccupied 7 7 Cell.white).1 = false ∧
    (handleAiTurn gServiceOn (some (7, 7))).board = bOccupied ∧
    (handleAiTurn gServiceOn (some (7, 7))).board.history = bOccupied.history ∧
    (handleAiTurn gServiceOn (some (7, 7))).current_player = Cell.black ∧
    gServiceOn.current_player = Cell.white := by
  refine ⟨by decide, by decide, by decide, by decide, rfl⟩

/-- C3 (amended): the validation of an external AI-service move happens
inside the provider rather than in the caller: a move forwarded by
_get_ai_service_move was range-checked by the parser against the session
board size and checked empty against the live grid, so it is legal and
place_stone is guaranteed to accept it at application time; the suggestion
sent to the service is the medium-tier engine's selected move.  The caller
itself applies the move without inspecting the boolean result of
place_stone. -/
theorem c3_service_move_validated (b : Board) (rs : List (List Char))
    (r c : Int) (h : get_ai_service_move b rs = some (r, c)) :
    getCell b r c = some Cell.empty ∧
    (place_stone b r c Cell.white).1 = true ∧
    0 ≤ r ∧ r < (b.size : Int) ∧ 0 ≤ c ∧ c < (b.size : Int) ∧
    (∀ b2 : Board,
      ai_service_suggestion b2
        = GomokuAI.get_move { difficulty := "medium" } b2 Cell.white) := by
  unfold get_ai_service_move at h
  split at h
  · next r0 c0 hsucc =>
    cases h
    obtain ⟨hcell, hr0, hrs, hc0, hcs⟩ := openaiGetMove_success rs hsucc
    obtain ⟨row, hrow, hcellrow⟩ := Option.bind_eq_some.mp hcell
    have houter : b.grid.getD r.toNat [] = row := by
      rw [List.getD_eq_getElem?_getD, ← List.get?_eq_getElem?, hrow]
      rfl
    have hinner : row.getD c.toNat Cell.empty = Cell.empty := by
      rw [List.getD_eq_getElem?_getD, ← List.get?_eq_getElem?, hcellrow]
      rfl
    have hget : getCell b r c = some Cell.empty := by
      unfold getCell
      rw [if_pos ⟨hr0, hrs, hc0, hcs⟩, houter, hinner]
    refine ⟨hget, ?_, hr0, hrs, hc0, hcs, fun b2 => rfl⟩
    simp [place_stone, hget]
  · exact absurd h (by simp)

/-- C3 witness: with the single completion MOVE: C3 over a board holding one
center stone, the service pipeline forwards (2, 2) and the placement contract
accepts it. -/
theorem c3_witness :
    getCell bCenterStone 2 2 = some Cell.empty ∧
    (place_stone bCenterStone 2 2 Cell.white).1 = true :=
  let h := c3_service_move_validated bCenterStone ["MOVE: C3".toList] 2 2
    (by decide)
  ⟨h.1, h.2.1⟩

theorem countDir_sound (b : Board) (p : Cell) (dr dc : Int) :
    ∀ (fuel : Nat) (r c : Int) (i : Nat), 1 ≤ i →
      i ≤ countDir b p r c dr dc fuel →
      getCell b (r + (i : Int) * dr) (c + (i : Int) * dc) = some p := by
  intro fuel
  induction fuel with
  | zero =>
    intro r c i h1 h2
    simp only [countDir] at h2
    omega
  | succ f ih =>
    intro r c i h1 h2
    unfold countDir at h2
    split at h2
    · next hcell =>
      by_cases hi1 : i = 1
      · subst hi1
        simpa using hcell
      · have h2' : i - 1 ≤ countDir b p (r + dr) (c + dc) dr dc f := by omega
        have key := ih (r + dr) (c + dc) (i - 1) (by omega) h2'
        have e1 : ((i - 1 : Nat) : Int) = (i : Int) - 1 := by omega
        rw [e1] at key
        have e2 : r + dr + ((i : Int) - 1) * dr = r + (i : Int) * dr := by ring
        have e3 : c + dc + ((i : Int) - 1) * dc = c + (i : Int) * dc := by ring
        rw [e2, e3] at key
        exact key
    · omega

theorem countDir_complete (b : Board) (p : Cell) (dr dc : Int) :
    ∀ (fuel j : Nat) (r c : Int), j ≤ fuel →
      (∀ i : Nat, 1 ≤ i → i ≤ j →
        getCell b (r + (i : Int) * dr) (c + (i : Int) * dc) = some p) →
      j ≤ countDir b p r c dr dc fuel := by
  intro fuel
  induction fuel with
  | zero =>
    intro j r c hj _
    omega
  | succ f ih =>
    intro j r c hj hcells
    match j with
    | 0 => exact Nat.zero_le _
    | j' + 1 =>
      have hcell1 : getCell b (r + dr) (c + dc) = some p := by
        have := hcells 1 (by omega) (by omega)
        simpa using this
      unfold countDir
      rw [if_pos hcell1]
      have hrec : j' ≤ countDir b p (r + dr) (c + dc) dr dc f := by
        apply ih j' (r + dr) (c + dc) (by omega)
        intro i h1 hij
        have key := hcells (i + 1) (by omega) (by omega)
        have e2 : r + ((i + 1 : Nat) : Int) * dr = r + dr + (i : Int) * dr := by
          push_cast
          ring
        have e3 : c + ((i + 1 : Nat) : Int) * dc = c + dc + (i : Int) * dc := by
          push_cast
          ring
        rw [e2, e3] at key
        exact key
      omega

theorem window_size5 (b : Board) (p : Cell) (r c : Int) (d : Int × Int)
    (hd : d ∈ dirs) (k : Nat) (hk : k ≤ 4)
    (hW : ∀ i : Nat, i < 5 →
      getCell b (r + ((i : Int) - (k : Int)) * d.1)
                (c + ((i : Int) - (k : Int)) * d.2) = some p) :
    5 ≤ b.size := by
  have h0 := getCell_some_range (hW 0 (by omega))
  have h4 := getCell_some_range (hW 4 (by omega))
  fin_cases hd <;>
    (ring_nf at h0 h4; omega)

theorem run_window_iff (b : Board) (p : Cell) (r c dr dc : Int)
    (hp : getCell b r c = some p)
    (hwin5 : ∀ k : Nat, k ≤ 4 →
      (∀ i : Nat, i < 5 →
        getCell b (r + ((i : Int) - (k : Int)) * dr)
                  (c + ((i : Int) - (k : Int)) * dc) = some p) →
      5 ≤ b.size) :
    (5 ≤ 1 + countDir b p r c dr dc b.size
          + countDir b p r c (-dr) (-dc) b.size) ↔
    ∃ k : Nat, k ≤ 4 ∧ ∀ i : Nat, i < 5 →
      getCell b (r + ((i : Int) - (k : Int)) * dr)
                (c + ((i : Int) - (k : Int)) * dc) = some p := by
  constructor
  · intro h5
    set F := countDir b p r c dr dc b.size with hF
    set B := countDir b p r c (-dr) (-dc) b.size with hB
    refine ⟨min B 4, by omega, ?_⟩
    intro i hi
    rcases lt_trichotomy i (min B 4) with hlt | heqk | hgt
    · have ho1 : 1 ≤ min B 4 - i := by omega
      have ho2 : min B 4 - i ≤ B := by omega
      have key := countDir_sound b p (-dr) (-dc) b.size r c (min B 4 - i) ho1
        ho2
      have e1 : ((min B 4 - i : Nat) : Int) = ((min B 4 : Nat) : Int) - i := by
        omega
      rw [e1] at key
      have e2 : r + (((min B 4 : Nat) : Int) - i) * -dr
          = r + ((i : Int) - ((min B 4 : Nat) : Int)) * dr := by ring
      have e3 : c + (((min B 4 : Nat) : Int) - i) * -dc
          = c + ((i : Int) - ((min B 4 : Nat) : Int)) * dc := by ring
      rw [e2, e3] at key
      exact key
    · have e2 : r + ((i : Int) - ((min B 4 : Nat) : Int)) * dr = r := by
        rw [heqk]; ring
      have e3 : c + ((i : Int) - ((min B 4 : Nat) : Int)) * dc = c := by
        rw [heqk]; ring
      rw [e2, e3]
      exact hp
    · have ho1 : 1 ≤ i - min B 4 := by omega
      have ho2 : i - min B 4 ≤ F := by omega
      have key := countDir_sound b p dr dc b.size r c (i - min B 4) ho1 ho2
      have e1 : ((i - min B 4 : Nat) : Int) = (i : Int) - ((min B 4 : Nat) : Int) := by
        omega
      rw [e1] at key
      exact key
  · rintro ⟨k, hk, hW⟩
    have hs5 := hwin5 k hk hW
    have hFge : 4 - k ≤ countDir b p r c dr dc b.size := by
      apply countDir_complete b p dr dc b.size (4 - k) r c (by omega)
      intro i h1 hij
      have key := hW (k + i) (by omega)
      have e1 : (((k + i : Nat) : Int) - (k : Int)) = (i : Int) := by omega
      rw [e1] at key
      exact key
    have hBge : k ≤ countDir b p r c (-dr) (-dc) b.size := by
      apply countDir_complete b p (-dr) (-dc) b.size k r c (by omega)
      intro i h1 hij
      have key := hW (k - i) (by omega)
      have e1 : (((k - i : Nat) : Int) - (k : Int)) = -(i : Int) := by omega
      rw [e1] at key
      have e2 : r + -(i : Int) * dr = r + (i : Int) * -dr := by ring
      have e3 : c + -(i : Int) * dc = c + (i : Int) * -dc := by ring
      rw [e2, e3] at key
      exact key
    omega

/-- C2: check_win at (r, c) answers true exactly when a run of at least five
consecutive stones of the player sitting at (r, c) passes through that cell
along one of the four axes — equivalently, exactly when five consecutive
aligned cells around (r, c), that cell included, all hold the same stone.  In
particular it fires exactly when the fifth consecutive stone of a line has
just been placed, and a four-in-a-row blocked at both ends yields false. -/
theorem c2_check_win_iff (b : Board) (r c : Int) :
    check_win b r c = true ↔ hasFiveThrough b r c := by
  cases hcell : getCell b r c with
  | none =>
    simp [check_win, hcell, hasFiveThrough]
  | some p =>
    by_cases hpe : p = Cell.empty
    · subst hpe
      simp [check_win, hcell, hasFiveThrough]
    · simp only [check_win, hcell, if_neg hpe]
      rw [List.any_eq_true]
      constructor
      · rintro ⟨d, hd, hdec⟩
        rw [decide_eq_true_eq] at hdec
        have hiff := run_window_iff b p r c d.1 d.2 hcell
          (fun k hk hW => window_size5 b p r c d hd k hk hW)
        exact ⟨p, hcell, hpe, d, hd, hiff.mp hdec⟩
      · rintro ⟨p', hp', hpe', d, hd, k, hk, hW⟩
        have hpp : p' = p := by
          rw [hcell] at hp'
          exact (Option.some.inj hp').symm
        subst hpp
        have hiff := run_window_iff b p' r c d.1 d.2 hcell
          (fun k hk hW => window_size5 b p' r c d hd k hk hW)
        exact ⟨d, hd, decide_eq_true (hiff.mpr ⟨k, hk, hW⟩)⟩

theorem getCell_eq_some_of_range (b : Board) {r c : Int} (h1 : 0 ≤ r)
    (h2 : r < (b.size : Int)) (h3 : 0 ≤ c) (h4 : c < (b.size : Int)) :
    getCell b r c = some ((b.grid.getD r.toNat []).getD c.toNat Cell.empty) := by
  unfold getCell
  rw [if_pos ⟨h1, h2, h3, h4⟩]

theorem not_full_exists_empty {b : Board} (hwf : b.wf)
    (hnf : b.is_full = false) : ∃ r c : Int, getCell b r c = some Cell.empty := by
  unfold Board.is_full at hnf
  obtain ⟨row, hrowmem, hrow⟩ := List.all_eq_false.mp hnf
  have hrow' : (row.all fun cell => decide ¬cell = Cell.empty) = false := by
    revert hrow
    cases row.all fun cell => decide ¬cell = Cell.empty <;> simp
  obtain ⟨cell, hcellmem, hcell⟩ := List.all_eq_false.mp hrow'
  have hcellempty : cell = Cell.empty := by simpa using hcell
  obtain ⟨i, hi, hrowi⟩ := List.mem_iff_getElem.mp hrowmem
  obtain ⟨j, hj, hcellj⟩ := List.mem_iff_getElem.mp hcellmem
  have hib : i < b.size := by rw [← hwf.1]; exact hi
  have hjb : j < b.size := by rw [← hwf.2 row hrowmem]; exact hj
  refine ⟨(i : Int), (j : Int), ?_⟩
  rw [getCell_eq_some_of_range b (by positivity) (by exact_mod_cast hib)
    (by positivity) (by exact_mod_cast hjb)]
  have hti : ((i : Int)).toNat = i := Int.toNat_natCast i
  have htj : ((j : Int)).toNat = j := Int.toNat_natCast j
  rw [hti, htj, List.getD_eq_getElem b.grid [] hi, hrowi,
    List.getD_eq_getElem row Cell.empty hj, hcellj, hcellempty]

theorem hasStone_exists {b : Board} (hhs : hasStone b = true) (hwf : b.wf) :
    ∃ (r c : Int) (q : Cell), getCell b r c = some q ∧ q ≠ Cell.empty := by
  unfold hasStone at hhs
  obtain ⟨row, hrowmem, hrow⟩ := List.any_eq_true.mp hhs
  obtain ⟨cell, hcellmem, hcell⟩ := List.any_eq_true.mp hrow
  have hcellne : cell ≠ Cell.empty := by simpa using hcell
  obtain ⟨i, hi, hrowi⟩ := List.mem_iff_getElem.mp hrowmem
  obtain ⟨j, hj, hcellj⟩ := List.mem_iff_getElem.mp hcellmem
  have hib : i < b.size := by rw [← hwf.1]; exact hi
  have hjb : j < b.size := by rw [← hwf.2 row hrowmem]; exact hj
  refine ⟨(i : Int), (j : Int), cell, ?_, hcellne⟩
  rw [getCell_eq_some_of_range b (by positivity) (by exact_mod_cast hib)
    (by positivity) (by exact_mod_cast hjb)]
  have hti : ((i : Int)).toNat = i := Int.toNat_natCast i
  have htj : ((j : Int)).toNat = j := Int.toNat_natCast j
  rw [hti, htj, List.getD_eq_getElem b.grid [] hi, hrowi,
    List.getD_eq_getElem row Cell.empty hj, hcellj]

theorem isNearStone_of {b : Board} {r c r2 c2 : Int} {q : Cell}
    (hq : getCell b r2 c2 = some q) (hqe : q ≠ Cell.empty)
    (hr : (r2 - r).natAbs ≤ 2) (hc : (c2 - c).natAbs ≤ 2) :
    isNearStone b r c = true := by
  unfold isNearStone
  rw [List.any_eq_true]
  refine ⟨r2 - r, ?_, ?_⟩
  · have hcases : r2 - r = -2 ∨ r2 - r = -1 ∨ r2 - r = 0 ∨ r2 - r = 1 ∨
        r2 - r = 2 := by omega
    rcases hcases with h | h | h | h | h <;> rw [h] <;> simp [candOffsets]
  · rw [List.any_eq_true]
    refine ⟨c2 - c, ?_, ?_⟩
    · have hcases : c2 - c = -2 ∨ c2 - c = -1 ∨ c2 - c = 0 ∨ c2 - c = 1 ∨
          c2 - c = 2 := by omega
      rcases hcases with h | h | h | h | h <;> rw [h] <;> simp [candOffsets]
    · have e1 : r + (r2 - r) = r2 := by ring
      have e2 : c + (c2 - c) = c2 := by ring
      rw [e1, e2, hq]
      simpa using hqe

theorem near_stone_exists (b : Board) :
    ∀ d : Nat, ∀ sr sc er ec : Int, ∀ q : Cell, q ≠ Cell.empty →
      getCell b sr sc = some q → getCell b er ec = some Cell.empty →
      (sr - er).natAbs + (sc - ec).natAbs = d →
      ∃ r c : Int, getCell b r c = some Cell.empty ∧ isNearStone b r c = true := by
  intro d
  induction d using Nat.strong_induction_on with
  | _ d ih =>
    intro sr sc er ec q hqe hq hemp hd
    by_cases hd0 : d = 0
    · subst hd0
      have h1 : sr = er ∧ sc = ec := by omega
      rw [h1.1, h1.2] at hq
      rw [hq] at hemp
      exact absurd (Option.some.inj hemp) hqe
    · obtain ⟨hsr0, hsrs, hsc0, hscs⟩ := getCell_some_range hq
      obtain ⟨her0, hers, hec0, hecs⟩ := getCell_some_range hemp
      by_cases hrne : sr = er
      · have hcne : sc ≠ ec := by omega
        by_cases hlt : sc < ec
        · have hrange : 0 ≤ sc + 1 ∧ sc + 1 < (b.size : Int) := by omega
          have hcellmid := getCell_eq_some_of_range b hsr0 hsrs hrange.1
            hrange.2
          by_cases hxe : (b.grid.getD sr.toNat []).getD (sc + 1).toNat
              Cell.empty = Cell.empty
          · refine ⟨sr, sc + 1, by rw [hcellmid, hxe], ?_⟩
            exact isNearStone_of (r := sr) (c := sc + 1) hq hqe (by omega)
              (by omega)
          · have hd' : (sr - er).natAbs + (sc + 1 - ec).natAbs < d := by omega
            exact ih _ hd' sr (sc + 1) er ec _ hxe hcellmid hemp rfl
        · have hrange : 0 ≤ sc - 1 ∧ sc - 1 < (b.size : Int) := by omega
          have hcellmid := getCell_eq_some_of_range b hsr0 hsrs hrange.1
            hrange.2
          by_cases hxe : (b.grid.getD sr.toNat []).getD (sc - 1).toNat
              Cell.empty = Cell.empty
          · refine ⟨sr, sc - 1, by rw [hcellmid, hxe], ?_⟩
            exact isNearStone_of (r := sr) (c := sc - 1) hq hqe (by omega)
              (by omega)
          · have hd' : (sr - er).natAbs + (sc - 1 - ec).natAbs < d := by omega
            exact ih _ hd' sr (sc - 1) er ec _ hxe hcellmid hemp rfl
      · by_cases hlt : sr < er
        · have hrange : 0 ≤ sr + 1 ∧ sr + 1 < (b.size : Int) := by omega
          have hcellmid := getCell_eq_some_of_range b hrange.1 hrange.2 hsc0
            hscs
          by_cases hxe : (b.grid.getD (sr + 1).toNat []).getD sc.toNat
              Cell.empty = Cell.empty
          · refine ⟨sr + 1, sc, by rw [hcellmid, hxe], ?_⟩
            exact isNearStone_of (r := sr + 1) (c := sc) hq hqe (by omega)
              (by omega)
          · have hd' : (sr + 1 - er).natAbs + (sc - ec).natAbs < d := by omega
            exact ih _ hd' (sr + 1) sc er ec _ hxe hcellmid hemp rfl
        · have hrange : 0 ≤ sr - 1 ∧ sr - 1 < (b.size : Int) := by omega
          have hcellmid := getCell_eq_some_of_range b hrange.1 hrange.2 hsc0
            hscs
          by_cases hxe : (b.grid.getD (sr - 1).toNat []).getD sc.toNat
              Cell.empty = Cell.empty
          · refine ⟨sr - 1, sc, by rw [hcellmid, hxe], ?_⟩
            exact isNearStone_of (r := sr - 1) (c := sc) hq hqe (by omega)
              (by omega)
          · have hd' : (sr - 1 - er).natAbs + (sc - ec).natAbs < d := by omega
            exact ih _ hd' (sr - 1) sc er ec _ hxe hcellmid hemp rfl

theorem mem_allCells {b : Board} {r c : Int} (h1 : 0 ≤ r)
    (h2 : r < (b.size : Int)) (h3 : 0 ≤ c) (h4 : c < (b.size : Int)) :
    (r, c) ∈ allCells b := by
  have hr' : r.toNat < b.size := by omega
  have hc' : c.toNat < b.size := by omega
  simp only [allCells, List.mem_flatMap, List.mem_map, List.mem_range]
  refine ⟨r.toNat, hr', (c.toNat : Int), ?_, ?_⟩
  · simp only [List.pure_def, List.bind_eq_flatMap, List.mem_flatMap,
      List.mem_range, List.mem_singleton]
    exact ⟨c.toNat, hc', rfl⟩
  · rw [Int.toNat_of_nonneg h1, Int.toNat_of_nonneg h3]

theorem candidates_nonempty (b : Board) (hwf : b.wf)
    (hnf : b.is_full = false) : generate_candidates b ≠ [] := by
  cases hhs : hasStone b with
  | false => simp [generate_candidates, hhs]
  | true =>
    obtain ⟨er, ec, hempty⟩ := not_full_exists_empty hwf hnf
    obtain ⟨sr, sc, q, hq, hqe⟩ := hasStone_exists hhs hwf
    obtain ⟨r, c, hemp, hnear⟩ := near_stone_exists b
      ((sr - er).natAbs + (sc - ec).natAbs) sr sc er ec q hqe hq hempty rfl
    intro hcand
    have hmem : (r, c) ∈ generate_candidates b := by
      obtain ⟨h1, h2, h3, h4⟩ := getCell_some_range hemp
      unfold generate_candidates
      rw [if_pos hhs]
      apply List.mem_filter.2
      refine ⟨mem_allCells h1 h2 h3 h4, ?_⟩
      simp [hemp, hnear]
    rw [hcand] at hmem
    exact absurd hmem (List.not_mem_nil _)

theorem selectMax_ne_none (score : Int × Int → Int) (b : Board) :
    ∀ l : List (Int × Int), l ≠ [] → selectMax score b l ≠ none := by
  have aux : ∀ (l : List (Int × Int)) (acc : Option (Int × Int)), acc ≠ none →
      List.foldl
        (fun acc m =>
          match acc with
          | none => some m
          | some m0 => if betterThan score b m m0 then some m else some m0)
        acc l ≠ none := by
    intro l
    induction l with
    | nil => intro acc h; exact h
    | cons x xs ih =>
      intro acc h
      rw [List.foldl_cons]
      apply ih
      cases acc with
      | none => exact absurd rfl h
      | some m0 =>
        show (if betterThan score b x m0 then some x else some m0) ≠ none
        split <;> simp
  intro l hl
  cases l with
  | nil => exact absurd rfl hl
  | cons x xs =>
    unfold selectMax
    rw [List.foldl_cons]
    apply aux
    simp

theorem topKAux_ne_nil (score : Int × Int → Int) (b : Board) (k : Nat)
    (l : List (Int × Int)) (hl : l ≠ []) : topKAux score b (k + 1) l ≠ [] := by
  unfold topKAux
  cases hsel : selectMax score b l with
  | none => exact absurd hsel (selectMax_ne_none score b l hl)
  | some m => simp

/-- C4: the traditional engine returns none only when no legal candidate
exists, which on a well-formed board means the board is full; and the AI-turn
handler treats a none result as a draw — it sets game_over and the draw
winner, never raising an error. -/
theorem c4_none_is_draw (b : Board) (ai : GomokuAI) (p : Cell) (hwf : b.wf) :
    (ai.get_move b p = none → b.is_full = true) ∧
    (∀ (g : GameState) (svc : Option (Int × Int)),
      g.use_ai_service = false →
      GomokuAI.get_move g.traditional_ai g.board Cell.white = none →
      (handleAiTurn g svc).game_over = true ∧
      (handleAiTurn g svc).winner = some Winner.draw ∧
      (handleAiTurn g svc).board = g.board) := by
  constructor
  · intro hnone
    cases hfull : b.is_full with
    | true => rfl
    | false =>
      exfalso
      have hcne := candidates_nonempty b hwf hfull
      unfold GomokuAI.get_move at hnone
      dsimp only at hnone
      split_ifs at hnone with hde hdh
      · unfold easySelect at hnone
        dsimp only at hnone
        split_ifs at hnone with hw hbl
        · exact selectMax_ne_none _ _ _ hw hnone
        · exact selectMax_ne_none _ _ _ hbl hnone
        · exact selectMax_ne_none _ _ _ hcne hnone
      · unfold hardSelect at hnone
        dsimp only at hnone
        split_ifs at hnone with hw hbl
        · exact selectMax_ne_none _ _ _ hw hnone
        · exact selectMax_ne_none _ _ _ hbl hnone
        · exact selectMax_ne_none _ _ _
            (topKAux_ne_nil _ b 9 (generate_candidates b) hcne) hnone
      · unfold mediumSelect at hnone
        exact selectMax_ne_none _ _ _ hcne hnone
  · intro g svc hus hmove
    refine ⟨?_, ?_, ?_⟩ <;> simp [handleAiTurn, hus, hmove]

/-- C4 witness: the empty 5 by 5 board is well-formed, so the contract
applies to it. -/
theorem c4_witness :
    (emptyBoard 5).wf ∧
    (GomokuAI.get_move { difficulty := "medium" } (emptyBoard 5) Cell.white
        = none → (emptyBoard 5).is_full = true) :=
  ⟨by decide,
    (c4_none_is_draw (emptyBoard 5) { difficulty := "medium" } Cell.white
      (by decide)).1⟩

/-- C10 witness: H8 on a 15 by 15 board round-trips to (7, 7). -/
theorem c10_witness :
    position_to_coords (coords_to_position ((7 : Nat) : Int) ((7 : Nat) : Int))
      15 = some (((7 : Nat) : Int), ((7 : Nat) : Int)) :=
  c10_coords_roundtrip.1 15 (by decide) 7 (by decide) 7 (by decide)

end Gomoku
